/-
Verification of the innovopedia-telegram bot core
(preference store, auto-post scheduler, manual dispatcher, formatter).

Shallow embedding of the JavaScript sources:
  - services/preferences (PreferencesService): getPreferences,
    updatePreferences, updateCategories, updateTags, toggleAutoPosting,
    updateLastPostId over a NodeCache keyed by String(chatId).
  - services/botService (BotService): startAutoPosting, stopAutoPosting,
    checkForNewPosts, formatPost, handlePostSpecific.

External collaborators (WordPress fetch, Telegram send) are parameters:
a tick receives the fetched post list (or a fetch failure) and a
per-post-id delivery outcome, mirroring the awaited promises.
Timestamps are modelled as Nat, JS numbers as Int (all ids are integers).
-/
import Mathlib

namespace Innovopedia

/-- JS whitespace class `\s` restricted to the characters that occur in
WordPress excerpts (space, tab, LF, CR, vertical tab, form feed). -/
def isJsSpace (c : Char) : Bool :=
  c = ' ' || c = '\t' || c = '\n' || c = '\r' || c = '\x0b' || c = '\x0c'

/-- `String.prototype.trim()` on a character list: drop leading and
trailing whitespace. -/
def jsTrim (l : List Char) : List Char :=
  ((l.dropWhile isJsSpace).reverse.dropWhile isJsSpace).reverse

/-- Decimal digit test. -/
def isDigitChar (c : Char) : Bool :=
  '0' ≤ c && c ≤ '9'

/-- Value of a list of decimal digits. -/
def digitsToNat (l : List Char) : Nat :=
  l.foldl (fun a c => 10 * a + (c.toNat - '0'.toNat)) 0

/-- JS `Number(string)` for the integer-literal strings this bot receives
as category/tag/post-id input: whitespace is trimmed, the empty string
coerces to 0, an optional sign followed by digits parses, anything else
is NaN (`none`). Fractional / hex forms do not occur in this code path. -/
def jsStringToNumber (s : String) : Option Int :=
  match jsTrim s.toList with
  | [] => some 0
  | '-' :: ds =>
    if ds ≠ [] && ds.all isDigitChar then some (-(digitsToNat ds : Int)) else none
  | '+' :: ds =>
    if ds ≠ [] && ds.all isDigitChar then some (digitsToNat ds) else none
  | ds =>
    if ds.all isDigitChar then some ((digitsToNat ds : Int)) else none

/-- A JS value appearing in a category/tag input array: a string (from a
command) or a number (from a selection session). -/
inductive JsValue where
  | str (s : String)
  | num (n : Int)
deriving Repr, DecidableEq

/-- JS `Number(v)`; `none` is NaN. -/
def toNumber : JsValue → Option Int
  | .str s => jsStringToNumber s
  | .num n => some n

/-- `array.map(Number).filter(Boolean)`: coerce every entry to a number
and keep the truthy ones — NaN and 0 are falsy and are dropped, every
other number (negative included) is kept. -/
def numberFilterBoolean (l : List JsValue) : List Int :=
  l.filterMap (fun v =>
    match toNumber v with
    | some n => if n = 0 then none else some n
    | none => none)

/-- Worker for `jsSetDedup`: `seen` holds the values already emitted. -/
def jsSetDedupGo (seen : List Int) : List Int → List Int
  | [] => []
  | x :: rest =>
    if seen.contains x then jsSetDedupGo seen rest
    else x :: jsSetDedupGo (x :: seen) rest

/-- `[...new Set(list)]`: deduplicate keeping the first occurrence of
each element, preserving insertion order. -/
def jsSetDedup (l : List Int) : List Int :=
  jsSetDedupGo [] l

/-- Worker for `stripTags`; the flag says whether we are inside a
regex match (between a matched `<` and its closing `>`). -/
def stripTagsGo : List Char → Bool → List Char
  | [], _ => []
  | c :: rest, true =>
    if c = '>' then stripTagsGo rest false else stripTagsGo rest true
  | c :: rest, false =>
    if c = '<' && rest.contains '>' then stripTagsGo rest true
    else c :: stripTagsGo rest false

/-- One global replacement pass of `/<[^>]*>/g` with `''`: each `<` that
is followed by some `>` starts a match running to the first such `>`,
and the match is deleted; a `<` with no later `>` cannot start a match
(nor can anything after it), so it is kept verbatim. -/
def stripTags (l : List Char) : List Char :=
  stripTagsGo l false

/-- Worker for `normWs`; the flag says whether we are inside a
whitespace run whose single replacement space was already emitted. -/
def normWsGo : List Char → Bool → List Char
  | [], _ => []
  | c :: rest, inRun =>
    if isJsSpace c then
      if inRun then normWsGo rest true else ' ' :: normWsGo rest true
    else
      c :: normWsGo rest false

/-- One global replacement pass of `/\s+/g` with `' '`: every maximal
run of whitespace becomes a single space. -/
def normWs (l : List Char) : List Char :=
  normWsGo l false

/-- One chat's preferences, exactly the fields of
`PreferencesService.defaultPreferences`: `categories`, `tags`,
`autoPosting`, `lastPostId` (null = `none`), `lastCheck`
(ISO timestamp, modelled as a Nat; null = `none`). -/
structure Prefs where
  categories : List Int
  tags : List Int
  autoPosting : Bool
  lastPostId : Option Int
  lastCheck : Option Nat
deriving Repr, DecidableEq

/-- `defaultPreferences` of the service. `config.posts.defaultCategories`
and `defaultTags` are `[]` unless overridden by environment variables;
the proofs do not depend on their values. -/
def defaultPreferences : Prefs :=
  { categories := [], tags := [], autoPosting := false,
    lastPostId := none, lastCheck := none }

/-- A partial update object passed to `updatePreferences`; `none` means
the field is absent from the update and survives the spread merge. -/
structure PrefPatch where
  categories : Option (List Int) := none
  tags : Option (List Int) := none
  autoPosting : Option Bool := none
  lastPostId : Option (Option Int) := none
  lastCheck : Option (Option Nat) := none
deriving Repr, DecidableEq

/-- `{ ...current, ...updates }`: fields present in the patch replace the
current values, absent fields are kept. -/
def applyPatch (p : Prefs) (u : PrefPatch) : Prefs :=
  { categories := u.categories.getD p.categories,
    tags := u.tags.getD p.tags,
    autoPosting := u.autoPosting.getD p.autoPosting,
    lastPostId := u.lastPostId.getD p.lastPostId,
    lastCheck := u.lastCheck.getD p.lastCheck }

/-- The NodeCache: an association list keyed by the string chat id. -/
abbrev Store := List (String × Prefs)

/-- `cache.get(key)`. -/
def storeGet : Store → String → Option Prefs
  | [], _ => none
  | (k', p) :: rest, k => if k' = k then some p else storeGet rest k

/-- `cache.set(key, value)`: replace the entry if present, else append. -/
def storeSet : Store → String → Prefs → Store
  | [], k, p => [(k, p)]
  | (k', q) :: rest, k, p =>
    if k' = k then (k, p) :: rest else (k', q) :: storeSet rest k p

/-- A chat id as it arrives at the service boundary: a number or a
string (`@param {string|number} chatId`). -/
inductive ChatId where
  | num (n : Int)
  | str (s : String)
deriving Repr, DecidableEq

/-- JS `String(chatId)`; for an integral number this is its decimal
representation with a leading minus sign when negative. -/
def keyOf : ChatId → String
  | .num n => toString n
  | .str s => s

/-- `PreferencesService.getPreferences`: coerce the id with `String()`,
return the cached entry, or lazily create and cache a copy of the
defaults. Returns the preferences together with the updated cache. -/
def getPreferences (chatId : ChatId) (st : Store) : Prefs × Store :=
  let chatIdStr := keyOf chatId
  match storeGet st chatIdStr with
  | some cached => (cached, st)
  | none => (defaultPreferences, storeSet st chatIdStr defaultPreferences)

/-- `PreferencesService.updatePreferences`: coerce the id, read the
current entry (lazily creating it), spread-merge the updates, store the
result. Returns the updated preferences and the updated cache. -/
def updatePreferences (chatId : ChatId) (updates : PrefPatch) (st : Store) :
    Prefs × Store :=
  let chatIdStr := keyOf chatId
  let r := getPreferences (.str chatIdStr) st
  let updated := applyPatch r.1 updates
  (updated, storeSet r.2 chatIdStr updated)

/-- `PreferencesService.updateCategories`:
`[...new Set(categories.map(Number).filter(Boolean))]`. -/
def updateCategories (chatId : ChatId) (categories : List JsValue)
    (st : Store) : Prefs × Store :=
  updatePreferences chatId
    { categories := some (jsSetDedup (numberFilterBoolean categories)) } st

/-- `PreferencesService.updateTags`:
`[...new Set(tags.map(Number).filter(Boolean))]`. -/
def updateTags (chatId : ChatId) (tags : List JsValue) (st : Store) :
    Prefs × Store :=
  updatePreferences chatId
    { tags := some (jsSetDedup (numberFilterBoolean tags)) } st

/-- `PreferencesService.toggleAutoPosting(chatId, enabled = null)`:
`enabled !== null` picks the explicit value, otherwise the flag is
negated; `lastCheck` is stamped with now only when the new value is
enabled, else kept. -/
def toggleAutoPosting (chatId : ChatId) (enabled : Option Bool)
    (now : Nat) (st : Store) : Prefs × Store :=
  let r := getPreferences chatId st
  let newValue := match enabled with
    | some b => b
    | none => !r.1.autoPosting
  updatePreferences chatId
    { autoPosting := some newValue,
      lastCheck := some (if newValue then some now else r.1.lastCheck) } r.2

/-- `PreferencesService.updateLastPostId`: unconditionally store
`Number(postId)` as the cursor and stamp `lastCheck` with now. -/
def updateLastPostId (chatId : ChatId) (postId : Int) (now : Nat)
    (st : Store) : Prefs × Store :=
  updatePreferences chatId
    { lastPostId := some (some postId), lastCheck := some (some now) } st

/-- A WordPress post as shaped by `WordPressService._formatPost`:
`id`, rendered `title` and `excerpt` strings, `link`, category and tag
id arrays, optional `featuredImage`. (`date`/`modified`/`slug` are not
consumed by the verified code paths.) -/
structure Post where
  id : Int
  title : String
  excerpt : String
  link : String
  categories : List Int
  tags : List Int
  featuredImage : Option String := none
deriving Repr, DecidableEq

/-- The excerpt cleaning chain of `BotService.formatPost`:
`.replace(/<[^>]*>/g, '').replace(/\s+/g, ' ').trim()`. -/
def cleanExcerpt (post : Post) : List Char :=
  jsTrim (normWs (stripTags post.excerpt.toList))

/-- `maxLength` in `formatPost`. -/
def maxLength : Nat := 1000

/-- Truncation step of `formatPost`: excerpts longer than `maxLength`
become `excerpt.substring(0, maxLength - 3) + '...'`. -/
def truncateExcerpt (excerpt : List Char) : List Char :=
  if maxLength < excerpt.length then
    excerpt.take (maxLength - 3) ++ ('.' :: '.' :: '.' :: [])
  else
    excerpt

/-- The excerpt as it appears in the rendered message. -/
def renderedExcerpt (post : Post) : List Char :=
  truncateExcerpt (cleanExcerpt post)

/-- An inline-keyboard button: label and URL or callback payload. -/
structure Button where
  label : String
  payload : String
deriving Repr, DecidableEq

/-- The result of `formatPost`: message text, parse mode and inline
keyboard. -/
structure RenderedMessage where
  text : List Char
  parseMode : String
  keyboard : List (List Button)
deriving Repr, DecidableEq

/-- `BotService.formatPost`: clean and truncate the excerpt, build the
button rows (read-more/like always; a second row when the post has
categories or tags), render
`*title*\n\ntruncatedExcerpt\n\n[Read more](link)` in Markdown mode. -/
def formatPost (post : Post) : RenderedMessage :=
  let truncatedExcerpt := renderedExcerpt post
  let row1 : List Button :=
    [ { label := "Read Full Article", payload := post.link },
      { label := "Like", payload := "like_" ++ toString post.id } ]
  let row2 : List Button :=
    (if 0 < post.categories.length then
      [ { label := toString post.categories.length ++ " Categories",
          payload := "show_categories_" ++ toString post.id } ]
     else []) ++
    (if 0 < post.tags.length then
      [ { label := toString post.tags.length ++ " Tags",
          payload := "show_tags_" ++ toString post.id } ]
     else [])
  let keyboard :=
    if 0 < post.categories.length ∨ 0 < post.tags.length then
      [row1, row2]
    else
      [row1]
  { text := '*' :: post.title.toList ++ '*' :: '\n' :: '\n' ::
      truncatedExcerpt ++ '\n' :: '\n' ::
      ('[' :: "Read more](".toList ++ post.link.toList ++ [')']),
    parseMode := "Markdown",
    keyboard := keyboard }

/-- The skip guard of `checkForNewPosts`:
`prefs.lastPostId && post.id <= prefs.lastPostId` — JS truthiness, so a
null (or zero) cursor never skips. -/
def skipPost (prefs : Prefs) (postId : Int) : Bool :=
  match prefs.lastPostId with
  | none => false
  | some c => decide (c ≠ 0 ∧ postId ≤ c)

/-- Outcome of one auto-post tick: the cache afterwards, the ids
delivered (in delivery order), the ids on which `sendPost` was invoked
(in order), and whether the loop ran to completion without a thrown
delivery error. -/
structure TickResult where
  store : Store
  delivered : List Int
  attempted : List Int
  ok : Bool
deriving Repr, DecidableEq

/-- The delivery loop of `checkForNewPosts`. `snapshot` is the `prefs`
object read once before the loop — `updatePreferences` replaces the
cache entry with a fresh object, so the loop's guard keeps seeing the
tick-start values. `send` gives each awaited `sendPost`'s outcome; a
false means the promise rejected, which aborts the loop (the exception
is caught by the tick's outer catch). -/
def tickLoop (snapshot : Prefs) (send : Int → Bool) (now : Nat)
    (key : String) : List Post → Store → TickResult
  | [], st => { store := st, delivered := [], attempted := [], ok := true }
  | post :: rest, st =>
    if skipPost snapshot post.id then
      tickLoop snapshot send now key rest st
    else if send post.id then
      let st1 := (updateLastPostId (.str key) post.id now st).2
      let r := tickLoop snapshot send now key rest st1
      { r with delivered := post.id :: r.delivered,
               attempted := post.id :: r.attempted }
    else
      { store := st, delivered := [], attempted := [post.id], ok := false }

/-- `BotService.checkForNewPosts`. `fetch` is the result of the awaited
`wordpress.getPosts(...)` call: `none` models a rejected fetch (the
catch only logs), `some posts` the response array, which the WordPress
API returns ordered by date descending (`order: 'desc'`) — the loop
consumes it in exactly that order. The final `lastCheck` stamp sits
inside the same try block, so it is skipped whenever the fetch or a
delivery threw. -/
def checkForNewPosts (fetch : Option (List Post)) (send : Int → Bool)
    (now : Nat) (chatId : ChatId) (st : Store) : TickResult :=
  let chatIdStr := keyOf chatId
  let r0 := getPreferences (.str chatIdStr) st
  match fetch with
  | none => { store := r0.2, delivered := [], attempted := [], ok := false }
  | some posts =>
    let r := tickLoop r0.1 send now chatIdStr posts r0.2
    if r.ok then
      { r with store :=
          (updatePreferences (.str chatIdStr)
            { lastCheck := some (some now) } r.store).2 }
    else
      r

/-- `BotService.handlePostSpecific`, state-relevant core: fetch the post
by id (`none` = `getPostById` rejected / post not found), send it — with
no skip check against the cursor — and on success unconditionally store
its id as the cursor. Errors land in the catch, leaving the store
untouched. Returns the store and whether the post was delivered. -/
def handlePostSpecific (found : Option Post) (send : Int → Bool)
    (now : Nat) (chatId : ChatId) (st : Store) : Store × Bool :=
  match found with
  | none => (st, false)
  | some post =>
    if send post.id then
      ((updateLastPostId chatId post.id now st).2, true)
    else
      (st, false)

/-- Scheduler state of `BotService`: the preference cache, the
`this.intervals` map (chat key → timer id of the armed interval), the
set of live (not yet cleared) timers tagged with the chat key their
callback polls, and a counter supplying fresh timer ids. -/
structure BotState where
  store : Store
  intervals : List (String × Nat)
  liveTimers : List (Nat × String)
  nextTimerId : Nat
deriving Repr, DecidableEq

/-- Lookup in the `this.intervals` object. -/
def lookupTimer : List (String × Nat) → String → Option Nat
  | [], _ => none
  | (k', t) :: rest, k => if k' = k then some t else lookupTimer rest k

/-- `this.intervals[key] = timer`. -/
def setTimer : List (String × Nat) → String → Nat → List (String × Nat)
  | [], k, t => [(k, t)]
  | (k', t') :: rest, k, t =>
    if k' = k then (k, t) :: rest else (k', t') :: setTimer rest k t

/-- `delete this.intervals[key]`. -/
def removeTimer : List (String × Nat) → String → List (String × Nat)
  | [], _ => []
  | (k', t') :: rest, k =>
    if k' = k then rest else (k', t') :: removeTimer rest k

/-- `clearInterval(t)`: the timer stops being live. -/
def clearIntervalIn (timers : List (Nat × String)) (t : Nat) :
    List (Nat × String) :=
  timers.filter (fun e => e.1 ≠ t)

/-- `BotService.startAutoPosting`: clear any existing interval for the
chat, enable the preference (stamping `lastCheck`), run one immediate
`checkForNewPosts`, then arm a fresh interval and record it in
`this.intervals`. `fetch`/`send` parametrise the immediate check. -/
def startAutoPosting (fetch : Option (List Post)) (send : Int → Bool)
    (now : Nat) (chatId : ChatId) (s : BotState) : BotState :=
  let chatIdStr := keyOf chatId
  let live1 := match lookupTimer s.intervals chatIdStr with
    | some t => clearIntervalIn s.liveTimers t
    | none => s.liveTimers
  let st1 := (toggleAutoPosting (.str chatIdStr) (some true) now s.store).2
  let st2 := (checkForNewPosts fetch send now (.str chatIdStr) st1).store
  let tid := s.nextTimerId
  { store := st2,
    intervals := setTimer s.intervals chatIdStr tid,
    liveTimers := live1 ++ [(tid, chatIdStr)],
    nextTimerId := tid + 1 }

/-- `BotService.stopAutoPosting`: when an interval exists for the chat,
clear it, drop it from `this.intervals`, disable the preference and
return true; otherwise do nothing and return false. -/
def stopAutoPosting (chatId : ChatId) (now : Nat) (s : BotState) :
    BotState × Bool :=
  let chatIdStr := keyOf chatId
  match lookupTimer s.intervals chatIdStr with
  | some t =>
    ({ store := (toggleAutoPosting (.str chatIdStr) (some false) now s.store).2,
       intervals := removeTimer s.intervals chatIdStr,
       liveTimers := clearIntervalIn s.liveTimers t,
       nextTimerId := s.nextTimerId }, true)
  | none => (s, false)

/-- The ids a tick delivers out of a fetched list, given the snapshot
preferences: the posts passing the skip guard, in fetched order. -/
def deliveredOf (snapshot : Prefs) (posts : List Post) : List Int :=
  (posts.filter (fun p => !skipPost snapshot p.id)).map (fun p => p.id)

/-- Adjacent-pair wellformedness of normalized whitespace: no two
consecutive whitespace characters. -/
def noDoubleSpace (l : List Char) : Prop :=
  List.Chain' (fun a b => ¬(isJsSpace a = true ∧ isJsSpace b = true)) l

/- ===================== helper lemmas ===================== -/

theorem storeGet_storeSet_self (st : Store) (k : String) (p : Prefs) :
    storeGet (storeSet st k p) k = some p := by
  induction st with
  | nil => simp [storeSet, storeGet]
  | cons hd tl ih =>
    obtain ⟨k', q⟩ := hd
    by_cases h : k' = k
    · simp [storeSet, storeGet, h]
    · simp [storeSet, storeGet, h, ih]

theorem keyOf_str (s : String) : keyOf (.str s) = s := rfl

theorem updatePreferences_entry (chatId : ChatId) (u : PrefPatch)
    (st : Store) :
    storeGet (updatePreferences chatId u st).2 (keyOf chatId) =
      some (applyPatch (getPreferences (.str (keyOf chatId)) st).1 u) := by
  unfold updatePreferences
  exact storeGet_storeSet_self _ _ _

theorem updateLastPostId_entry (chatId : ChatId) (postId : Int)
    (now : Nat) (st : Store) :
    storeGet (updateLastPostId chatId postId now st).2 (keyOf chatId) =
      some { (getPreferences (.str (keyOf chatId)) st).1 with
             lastPostId := some postId, lastCheck := some now } := by
  unfold updateLastPostId
  rw [updatePreferences_entry]
  rfl

theorem getPreferences_present (k : String) (st : Store) (cur : Prefs)
    (h : storeGet st k = some cur) :
    getPreferences (.str k) st = (cur, st) := by
  simp [getPreferences, keyOf_str, h]

theorem getPreferences_entry (chatId : ChatId) (st : Store) :
    storeGet (getPreferences chatId st).2 (keyOf chatId) =
      some (getPreferences chatId st).1 := by
  unfold getPreferences
  cases h : storeGet st (keyOf chatId) with
  | some cur => simp [h]
  | none => simp [h, storeGet_storeSet_self]

theorem storeSet_storeSet_self (st : Store) (k : String) (p q : Prefs) :
    storeSet (storeSet st k p) k q = storeSet st k q := by
  induction st with
  | nil => simp [storeSet]
  | cons hd tl ih =>
    obtain ⟨k', r⟩ := hd
    by_cases h : k' = k
    · simp [storeSet, h]
    · simp [storeSet, h, ih]

theorem updatePreferences_entry_str (k : String) (u : PrefPatch)
    (st : Store) :
    storeGet (updatePreferences (.str k) u st).2 k =
      some (applyPatch (getPreferences (.str k) st).1 u) :=
  updatePreferences_entry (.str k) u st

theorem updateLastPostId_present (k : String) (st : Store) (cur : Prefs)
    (postId : Int) (now : Nat) (h : storeGet st k = some cur) :
    (updateLastPostId (.str k) postId now st).2 =
      storeSet st k
        { cur with lastPostId := some postId, lastCheck := some now } := by
  unfold updateLastPostId updatePreferences
  simp only [keyOf_str, getPreferences_present k st cur h]
  rfl

theorem tickLoop_allOk (snapshot : Prefs) (now : Nat) (k : String) :
    ∀ (posts : List Post) (st : Store) (cur : Prefs),
      storeGet st k = some cur →
      tickLoop snapshot (fun _ => true) now k posts st =
        { store :=
            match (deliveredOf snapshot posts).getLast? with
            | none => st
            | some i =>
              storeSet st k
                { cur with lastPostId := some i, lastCheck := some now },
          delivered := deliveredOf snapshot posts,
          attempted := deliveredOf snapshot posts,
          ok := true } := by
  intro posts
  induction posts with
  | nil => intro st cur h; simp [tickLoop, deliveredOf]
  | cons p rest ih =>
    intro st cur h
    by_cases hs : skipPost snapshot p.id
    · have hrec := ih st cur h
      simp [tickLoop, hs, deliveredOf, List.filter_cons] at hrec ⊢
      exact hrec
    · have hset := updateLastPostId_present k st cur p.id now h
      have hget : storeGet
          (storeSet st k
            { cur with lastPostId := some p.id, lastCheck := some now }) k =
          some { cur with lastPostId := some p.id, lastCheck := some now } :=
        storeGet_storeSet_self _ _ _
      have hrec := ih _ _ hget
      simp only [tickLoop, hs, Bool.false_eq_true, if_false, if_true, hset,
        hrec, deliveredOf, List.filter_cons, Bool.not_false, List.map_cons]
      cases hds :
          (rest.filter (fun q => !skipPost snapshot q.id)).map
            (fun q => q.id) with
      | nil => simp
      | cons i ds' =>
        cases hj : (i :: ds').getLast? with
        | none => simp at hj
        | some j =>
          simp only [List.getLast?_cons_cons, hj,
            storeSet_storeSet_self]

/- ===================== C1 ===================== -/

/-- C1 counterexample: `updateLastPostId` has no monotonic guard — after
the call sequence 5, 3 on a fresh chat the stored cursor is 3, not
`max 5 3 = 5`, so a call whose id is below the current cursor is not a
no-op. -/
theorem updateLastPostId_not_monotonic :
    (storeGet
      (updateLastPostId (.num 1) 3 1
        (updateLastPostId (.num 1) 5 0 ([] : Store)).2).2 "1").map
      Prefs.lastPostId = some (some 3) ∧ (3 : Int) ≠ max 5 3 := by
  constructor
  · rfl
  · decide

/-- C1 (amended): `updateLastPostId` unconditionally overwrites the
cursor, so after any nonempty sequence of cursor-advance calls the
stored `lastPostId` equals the id of the **last** call — not the
maximum, and dependent on call order. -/
theorem updateLastPostId_overwrites_cursor (chatId : ChatId)
    (lastId : Int) (lastNow : Nat) :
    ∀ (calls : List (Int × Nat)) (st : Store),
      calls.getLast? = some (lastId, lastNow) →
      (storeGet
        (calls.foldl (fun s c => (updateLastPostId chatId c.1 c.2 s).2) st)
        (keyOf chatId)).map Prefs.lastPostId = some (some lastId) := by
  intro calls
  induction calls with
  | nil => intro st h; simp at h
  | cons c cs ih =>
    intro st h
    cases cs with
    | nil =>
      simp only [List.getLast?_singleton, Option.some.injEq] at h
      subst h
      rw [List.foldl_cons, List.foldl_nil, updateLastPostId_entry]
      rfl
    | cons c' cs' =>
      rw [List.getLast?_cons_cons] at h
      rw [List.foldl_cons]
      exact ih _ h

/-- C1 witness: running the amended theorem on the concrete call
sequence 5, 3 for chat 1 starting from an empty cache. -/
theorem updateLastPostId_overwrites_cursor_witness :
    (storeGet
      ([((5 : Int), (0 : Nat)), (3, 1)].foldl
        (fun s c => (updateLastPostId (.num 1) c.1 c.2 s).2) ([] : Store))
      (keyOf (.num 1))).map Prefs.lastPostId = some (some 3) :=
  updateLastPostId_overwrites_cursor (.num 1) 3 1
    [((5 : Int), (0 : Nat)), (3, 1)] ([] : Store) rfl

/- ============ tick characterization (shared helpers) ============ -/

/-- Full characterization of an all-deliveries-succeed tick: it delivers
the posts passing the snapshot guard in fetched order, and the final
cache entry carries the last delivered id as cursor and a fresh
`lastCheck`. -/
theorem checkForNewPosts_allOk_spec (posts : List Post) (now : Nat)
    (chatId : ChatId) (st : Store) :
    let snap := (getPreferences (.str (keyOf chatId)) st).1
    let r := checkForNewPosts (some posts) (fun _ => true) now chatId st
    r.delivered = deliveredOf snap posts ∧ r.ok = true ∧
    storeGet r.store (keyOf chatId) =
      some { snap with
             lastPostId :=
               match (deliveredOf snap posts).getLast? with
               | none => snap.lastPostId
               | some i => some i,
             lastCheck := some now } := by
  intro snap r
  unfold_let r snap
  have h0 : storeGet (getPreferences (.str (keyOf chatId)) st).2
      (keyOf chatId) = some (getPreferences (.str (keyOf chatId)) st).1 :=
    getPreferences_entry (.str (keyOf chatId)) st
  have hloop := tickLoop_allOk (getPreferences (.str (keyOf chatId)) st).1
    now (keyOf chatId) posts (getPreferences (.str (keyOf chatId)) st).2
    (getPreferences (.str (keyOf chatId)) st).1 h0
  simp only [checkForNewPosts, keyOf_str]
  rw [hloop]
  simp only [if_true]
  refine ⟨trivial, trivial, ?_⟩
  cases hds : (deliveredOf (getPreferences (.str (keyOf chatId)) st).1
      posts).getLast? with
  | none =>
    simp only [hds]
    rw [updatePreferences_entry_str,
      getPreferences_present _ _ _ h0]
    rfl
  | some i =>
    simp only [hds]
    rw [updatePreferences_entry_str,
      getPreferences_present _ _ _ (storeGet_storeSet_self _ _ _)]
    rfl

/-- Characterization of a tick whose delivery throws on post `pf` after
the prefix `pre`: the loop delivers the guard-passing posts of `pre`,
additionally attempts `pf`, and stops — nothing after `pf` is touched
and the final `lastCheck` stamp is skipped. -/
theorem tickLoop_fail (snapshot : Prefs) (send : Int → Bool) (now : Nat)
    (k : String) :
    ∀ (pre : List Post) (pf : Post) (rest : List Post) (st : Store)
      (cur : Prefs),
      storeGet st k = some cur →
      (∀ p ∈ pre, send p.id = true) →
      send pf.id = false →
      skipPost snapshot pf.id = false →
      tickLoop snapshot send now k (pre ++ pf :: rest) st =
        { store :=
            match (deliveredOf snapshot pre).getLast? with
            | none => st
            | some i =>
              storeSet st k
                { cur with lastPostId := some i, lastCheck := some now },
          delivered := deliveredOf snapshot pre,
          attempted := deliveredOf snapshot pre ++ [pf.id],
          ok := false } := by
  intro pre
  induction pre with
  | nil =>
    intro pf rest st cur h _ hf hskip
    simp [tickLoop, hskip, hf, deliveredOf]
  | cons p pre' ih =>
    intro pf rest st cur h hpre hf hskip
    have hp : send p.id = true := hpre p (by simp)
    have hpre' : ∀ q ∈ pre', send q.id = true := fun q hq =>
      hpre q (by simp [hq])
    by_cases hs : skipPost snapshot p.id
    · have hrec := ih pf rest st cur h hpre' hf hskip
      simp [tickLoop, hs, deliveredOf, List.filter_cons] at hrec ⊢
      exact hrec
    · have hset := updateLastPostId_present k st cur p.id now h
      have hget : storeGet
          (storeSet st k
            { cur with lastPostId := some p.id, lastCheck := some now }) k =
          some { cur with lastPostId := some p.id, lastCheck := some now } :=
        storeGet_storeSet_self _ _ _
      have hrec := ih pf rest _ _ hget hpre' hf hskip
      simp only [List.cons_append, tickLoop, hs, Bool.false_eq_true,
        if_false, hp, if_true, hset, List.append_eq]
      rw [hrec]
      simp only [deliveredOf, List.filter_cons, hs, Bool.not_false,
        Bool.not_true, if_false, if_true, List.map_cons,
        Bool.false_eq_true]
      cases hds :
          (pre'.filter (fun q => !skipPost snapshot q.id)).map
            (fun q => q.id) with
      | nil => simp
      | cons i ds' =>
        cases hj : (i :: ds').getLast? with
        | none => simp at hj
        | some j =>
          simp only [List.getLast?_cons_cons, hj,
            storeSet_storeSet_self, List.cons_append]

/-- Tick-level failure characterization, for `checkForNewPosts` itself. -/
theorem checkForNewPosts_fail_spec (pre rest : List Post) (pf : Post)
    (send : Int → Bool) (now : Nat) (chatId : ChatId) (st : Store)
    (hpre : ∀ p ∈ pre, send p.id = true)
    (hf : send pf.id = false)
    (hskip :
      skipPost (getPreferences (.str (keyOf chatId)) st).1 pf.id = false) :
    let snap := (getPreferences (.str (keyOf chatId)) st).1
    let r := checkForNewPosts (some (pre ++ pf :: rest)) send now chatId st
    r.delivered = deliveredOf snap pre ∧
    r.attempted = deliveredOf snap pre ++ [pf.id] ∧
    r.ok = false ∧
    storeGet r.store (keyOf chatId) =
      some (match (deliveredOf snap pre).getLast? with
            | none => snap
            | some i =>
              { snap with lastPostId := some i, lastCheck := some now }) := by
  intro snap r
  unfold_let r snap
  have h0 : storeGet (getPreferences (.str (keyOf chatId)) st).2
      (keyOf chatId) = some (getPreferences (.str (keyOf chatId)) st).1 :=
    getPreferences_entry (.str (keyOf chatId)) st
  have hloop := tickLoop_fail (getPreferences (.str (keyOf chatId)) st).1
    send now (keyOf chatId) pre pf rest
    (getPreferences (.str (keyOf chatId)) st).2
    (getPreferences (.str (keyOf chatId)) st).1 h0 hpre hf hskip
  simp only [checkForNewPosts, keyOf_str]
  rw [hloop]
  simp only [Bool.false_eq_true, if_false]
  refine ⟨trivial, trivial, trivial, ?_⟩
  cases hds : (deliveredOf (getPreferences (.str (keyOf chatId)) st).1
      pre).getLast? with
  | none => simp only [hds, Bool.false_eq_true, if_false, h0]
  | some i =>
    simp only [hds, Bool.false_eq_true, if_false,
      storeGet_storeSet_self]

/- ===================== C2 ===================== -/

/-- C2 counterexample: with fetched items of ids 3, 2, 1 (the
date-descending order the WordPress call returns) and cursor 1, the tick
delivers [3, 2] — not [2, 3] — and leaves the cursor at 2, not 3. -/
theorem checkForNewPosts_not_oldest_first :
    (checkForNewPosts
        (some [{ id := 3, title := "t", excerpt := "e", link := "l",
                 categories := [], tags := [] },
               { id := 2, title := "t", excerpt := "e", link := "l",
                 categories := [], tags := [] },
               { id := 1, title := "t", excerpt := "e", link := "l",
                 categories := [], tags := [] }])
        (fun _ => true) 7 (.num 9)
        [("9", { defaultPreferences with lastPostId := some 1 })]).delivered
      = [3, 2] ∧
    ([3, 2] : List Int) ≠ [2, 3] ∧
    (storeGet
        (checkForNewPosts
          (some [{ id := 3, title := "t", excerpt := "e", link := "l",
                   categories := [], tags := [] },
                 { id := 2, title := "t", excerpt := "e", link := "l",
                   categories := [], tags := [] },
                 { id := 1, title := "t", excerpt := "e", link := "l",
                   categories := [], tags := [] }])
          (fun _ => true) 7 (.num 9)
          [("9", { defaultPreferences with lastPostId := some 1 })]).store
        "9").map Prefs.lastPostId = some (some 2) ∧
    some (some (2 : Int)) ≠ some (some (3 : Int)) :=
  ⟨rfl, by decide, rfl, by decide⟩

/-- C2 (amended): with every delivery succeeding, a tick delivers exactly
the fetched posts passing the snapshot-cursor guard (id strictly above a
non-null, nonzero cursor), in the **fetched order** — which is the
source's date-descending, newest-first order, not oldest-first — and on
full success leaves the cursor at the id of the **last delivered** post
(the smallest delivered id for a descending fetch, not the maximum),
stamping `lastCheck`. -/
theorem checkForNewPosts_delivers_fetched_order (posts : List Post)
    (now : Nat) (chatId : ChatId) (st : Store) :
    let snap := (getPreferences (.str (keyOf chatId)) st).1
    let r := checkForNewPosts (some posts) (fun _ => true) now chatId st
    r.delivered = deliveredOf snap posts ∧ r.ok = true ∧
    storeGet r.store (keyOf chatId) =
      some { snap with
             lastPostId :=
               match (deliveredOf snap posts).getLast? with
               | none => snap.lastPostId
               | some i => some i,
             lastCheck := some now } :=
  checkForNewPosts_allOk_spec posts now chatId st

/- ===================== C3 ===================== -/

/-- C3 counterexample: items of ids 4, 3, 2 are fetched (descending),
cursor is 1, and delivery of item 3 fails. Contrary to the claim's
example, item 4 **is** attempted (and delivered) before the failure, and
the cursor ends at 4, not at 2. -/
theorem checkForNewPosts_failure_example_wrong :
    (checkForNewPosts
        (some [{ id := 4, title := "t", excerpt := "e", link := "l",
                 categories := [], tags := [] },
               { id := 3, title := "t", excerpt := "e", link := "l",
                 categories := [], tags := [] },
               { id := 2, title := "t", excerpt := "e", link := "l",
                 categories := [], tags := [] }])
        (fun i => i != 3) 7 (.num 9)
        [("9", { defaultPreferences with lastPostId := some 1 })]).attempted
      = [4, 3] ∧
    (storeGet
        (checkForNewPosts
          (some [{ id := 4, title := "t", excerpt := "e", link := "l",
                   categories := [], tags := [] },
                 { id := 3, title := "t", excerpt := "e", link := "l",
                   categories := [], tags := [] },
                 { id := 2, title := "t", excerpt := "e", link := "l",
                   categories := [], tags := [] }])
          (fun i => i != 3) 7 (.num 9)
          [("9", { defaultPreferences with lastPostId := some 1 })]).store
        "9").map Prefs.lastPostId = some (some 4) ∧
    some (some (4 : Int)) ≠ some (some (2 : Int)) :=
  ⟨rfl, rfl, by decide⟩

/-- C3 (amended): when delivery of post `pf` fails after the prefix `pre`
of the fetched (descending) list, the tick delivers exactly the
guard-passing posts of `pre` (in fetched order), attempts nothing beyond
`pf`, and the cursor stays at the last id successfully delivered before
the failure (unchanged if none was); the tick-final `lastCheck` stamp is
skipped. In the claim's own scenario [2,3,4] with a failure on 3, the
iteration order is 4, 3, 2: item 4 is delivered first, the cursor ends
at 4 and item 2 is never attempted. -/
theorem checkForNewPosts_failure_stops (pre rest : List Post) (pf : Post)
    (send : Int → Bool) (now : Nat) (chatId : ChatId) (st : Store)
    (hpre : ∀ p ∈ pre, send p.id = true)
    (hf : send pf.id = false)
    (hskip :
      skipPost (getPreferences (.str (keyOf chatId)) st).1 pf.id = false) :
    let snap := (getPreferences (.str (keyOf chatId)) st).1
    let r := checkForNewPosts (some (pre ++ pf :: rest)) send now chatId st
    r.delivered = deliveredOf snap pre ∧
    r.attempted = deliveredOf snap pre ++ [pf.id] ∧
    r.ok = false ∧
    storeGet r.store (keyOf chatId) =
      some (match (deliveredOf snap pre).getLast? with
            | none => snap
            | some i =>
              { snap with lastPostId := some i, lastCheck := some now }) :=
  checkForNewPosts_fail_spec pre rest pf send now chatId st hpre hf hskip

/-- C3 witness: the amended theorem applied to the concrete fetch
[4, 3, 2] with cursor 1 and a failure injected on item 3. -/
theorem checkForNewPosts_failure_stops_witness :
    let snap := (getPreferences (.str (keyOf (.num 9)))
      [("9", { defaultPreferences with lastPostId := some 1 })]).1
    let r := checkForNewPosts
      (some ([{ id := 4, title := "t", excerpt := "e", link := "l",
                categories := [], tags := [] }] ++
             { id := 3, title := "t", excerpt := "e", link := "l",
               categories := [], tags := [] } ::
             [{ id := 2, title := "t", excerpt := "e", link := "l",
                categories := [], tags := [] }]))
      (fun i => i != 3) 7 (.num 9)
      [("9", { defaultPreferences with lastPostId := some 1 })]
    r.delivered = deliveredOf snap
      [{ id := 4, title := "t", excerpt := "e", link := "l",
         categories := [], tags := [] }] ∧
    r.attempted = deliveredOf snap
      [{ id := 4, title := "t", excerpt := "e", link := "l",
         categories := [], tags := [] }] ++ [(3 : Int)] ∧
    r.ok = false ∧
    storeGet r.store (keyOf (.num 9)) =
      some (match (deliveredOf snap
          [{ id := 4, title := "t", excerpt := "e", link := "l",
             categories := [], tags := [] }]).getLast? with
        | none => snap
        | some i =>
          { snap with lastPostId := some i, lastCheck := some 7 }) :=
  checkForNewPosts_failure_stops
    [{ id := 4, title := "t", excerpt := "e", link := "l",
       categories := [], tags := [] }]
    [{ id := 2, title := "t", excerpt := "e", link := "l",
       categories := [], tags := [] }]
    { id := 3, title := "t", excerpt := "e", link := "l",
      categories := [], tags := [] }
    (fun i => i != 3) 7 (.num 9)
    [("9", { defaultPreferences with lastPostId := some 1 })]
    (by decide) (by decide) (by decide)

/- ===================== C4 ===================== -/

/-- C4 counterexample: when the fetch itself fails, the tick's catch
skips the final `lastCheck` update — with a stored `lastCheck` of 100
and the tick running at time 200, `lastCheck` is still 100 afterwards. -/
theorem checkForNewPosts_fetch_failure_skips_lastCheck :
    (storeGet (checkForNewPosts none (fun _ => true) 200 (.num 9)
        [("9",
          { defaultPreferences with
            lastPostId := some 1, lastCheck := some 100 })]).store
      "9").map Prefs.lastCheck
      = some (some 100) ∧
    some (some (100 : Nat)) ≠ some (some (200 : Nat)) :=
  ⟨rfl, by decide⟩

/-- C4 (amended): `lastCheck` is stamped with "now" at the end of a tick
only when the tick runs to completion (fetch succeeded and every
delivery succeeded); when the fetch fails the catch skips the stamp and
the store is left exactly as it was after the lazy preference read. -/
theorem checkForNewPosts_lastCheck_on_success_only (posts : List Post)
    (send : Int → Bool) (now : Nat) (chatId : ChatId) (st : Store) :
    ((storeGet (checkForNewPosts (some posts) (fun _ => true) now chatId
        st).store (keyOf chatId)).map Prefs.lastCheck = some (some now)) ∧
    (checkForNewPosts none send now chatId st).store =
      (getPreferences (.str (keyOf chatId)) st).2 := by
  constructor
  · have h := checkForNewPosts_allOk_spec posts now chatId st
    rw [h.2.2]
    rfl
  · simp [checkForNewPosts]

/- ===================== C5 ===================== -/

/-- C5 counterexample: `handlePostSpecific` on item 1 with cursor 5 does
deliver the item, but then **overwrites** the cursor with 1 instead of
keeping `max 5 1 = 5` — the no-regression half of the claim is false. -/
theorem handlePostSpecific_regresses_cursor :
    (handlePostSpecific
        (some { id := 1, title := "t", excerpt := "e", link := "l",
                categories := [], tags := [] })
        (fun _ => true) 7 (.num 9)
        [("9", { defaultPreferences with lastPostId := some 5 })]).2
      = true ∧
    (storeGet (handlePostSpecific
        (some { id := 1, title := "t", excerpt := "e", link := "l",
                categories := [], tags := [] })
        (fun _ => true) 7 (.num 9)
        [("9", { defaultPreferences with lastPostId := some 5 })]).1
      "9").map Prefs.lastPostId = some (some 1) ∧
    some (some (1 : Int)) ≠ some (some (max 5 1 : Int)) :=
  ⟨rfl, rfl, by decide⟩

/-- C5 (amended): for any found post, `handlePostSpecific` delivers it
with no skip check against the cursor, and on delivery success
unconditionally sets the cursor to the posted item's id — advancing it
when the item is newer but regressing it when the item is older than the
current cursor. -/
theorem handlePostSpecific_sets_cursor_to_posted_id (post : Post)
    (now : Nat) (chatId : ChatId) (st : Store) :
    (handlePostSpecific (some post) (fun _ => true) now chatId st).2
      = true ∧
    (storeGet (handlePostSpecific (some post) (fun _ => true) now chatId
        st).1 (keyOf chatId)).map Prefs.lastPostId =
      some (some post.id) := by
  refine ⟨rfl, ?_⟩
  show (storeGet (updateLastPostId chatId post.id now st).2
    (keyOf chatId)).map Prefs.lastPostId = some (some post.id)
  rw [updateLastPostId_entry]
  rfl

/- ===================== C6 ===================== -/

theorem jsSetDedupGo_mem (x : Int) :
    ∀ (l seen : List Int),
      x ∈ jsSetDedupGo seen l ↔ x ∈ l ∧ x ∉ seen := by
  intro l
  induction l with
  | nil => intro seen; simp [jsSetDedupGo]
  | cons y rest ih =>
    intro seen
    by_cases hy : y ∈ seen
    · have hstep : jsSetDedupGo seen (y :: rest) = jsSetDedupGo seen rest := by
        simp [jsSetDedupGo, hy]
      rw [hstep, ih seen, List.mem_cons]
      constructor
      · exact fun h => ⟨Or.inr h.1, h.2⟩
      · rintro ⟨hxy | hr, hs⟩
        · exact absurd (hxy ▸ hy) hs
        · exact ⟨hr, hs⟩
    · have hstep : jsSetDedupGo seen (y :: rest) =
          y :: jsSetDedupGo (y :: seen) rest := by
        simp [jsSetDedupGo, hy]
      rw [hstep]
      simp only [List.mem_cons]
      rw [ih (y :: seen)]
      simp only [List.mem_cons]
      constructor
      · rintro (hxy | ⟨hr, hs⟩)
        · exact ⟨Or.inl hxy, hxy ▸ hy⟩
        · exact ⟨Or.inr hr, fun hm => hs (Or.inr hm)⟩
      · rintro ⟨hxy | hr, hs⟩
        · exact Or.inl hxy
        · by_cases hxy2 : x = y
          · exact Or.inl hxy2
          · exact Or.inr ⟨hr, fun hm => hm.elim hxy2 hs⟩

theorem jsSetDedupGo_nodup :
    ∀ (l seen : List Int), (jsSetDedupGo seen l).Nodup := by
  intro l
  induction l with
  | nil => intro seen; simp [jsSetDedupGo]
  | cons y rest ih =>
    intro seen
    by_cases hy : y ∈ seen
    · have hstep : jsSetDedupGo seen (y :: rest) = jsSetDedupGo seen rest := by
        simp [jsSetDedupGo, hy]
      rw [hstep]
      exact ih seen
    · have hstep : jsSetDedupGo seen (y :: rest) =
          y :: jsSetDedupGo (y :: seen) rest := by
        simp [jsSetDedupGo, hy]
      rw [hstep, List.nodup_cons]
      refine ⟨fun hm => ?_, ih (y :: seen)⟩
      exact ((jsSetDedupGo_mem y rest (y :: seen)).mp hm).2 (by simp)

theorem numberFilterBoolean_mem (x : Int) (l : List JsValue) :
    x ∈ numberFilterBoolean l ↔ x ≠ 0 ∧ ∃ v ∈ l, toNumber v = some x := by
  unfold numberFilterBoolean
  rw [List.mem_filterMap]
  constructor
  · rintro ⟨v, hv, hf⟩
    cases hn : toNumber v with
    | none => rw [hn] at hf; simp at hf
    | some n =>
      rw [hn] at hf
      by_cases h0 : n = 0
      · simp [h0] at hf
      · simp only [h0, if_false, Option.some.injEq] at hf
        subst hf
        exact ⟨h0, v, hv, hn⟩
  · rintro ⟨hx0, v, hv, hn⟩
    exact ⟨v, hv, by rw [hn]; simp [hx0]⟩

/-- C6 counterexample: the normalization keeps negative numerics — the
input `["-3"]` yields a category filter containing `-3`, which is not a
positive identifier, so the stored set does not contain only positive
numeric identifiers. -/
theorem updateCategories_keeps_negative :
    (-3 : Int) ∈ (updateCategories (.num 9) [.str "-3"] []).1.categories ∧
    ¬(0 : Int) < (-3 : Int) := by
  exact ⟨by decide, by decide⟩

/-- C6 (amended): `updateCategories`/`updateTags` store a deduplicated
list of the **nonzero** numeric coercions of the input — non-numeric
entries (NaN) and zeros are dropped by the truthiness filter and
duplicates are removed keeping first occurrences, but negative numerics
are kept; the example input `["2","2","x","0","5"]` yields exactly
`[2, 5]`. -/
theorem updateCategories_normalizes (chatId : ChatId) (l : List JsValue)
    (st : Store) :
    ((updateCategories chatId l st).1.categories).Nodup ∧
    (∀ x : Int, x ∈ (updateCategories chatId l st).1.categories ↔
      x ≠ 0 ∧ ∃ v ∈ l, toNumber v = some x) ∧
    (updateTags chatId l st).1.tags =
      (updateCategories chatId l st).1.categories ∧
    (updateCategories (.num 1)
        [.str "2", .str "2", .str "x", .str "0", .str "5"] []).1.categories
      = [2, 5] := by
  refine ⟨jsSetDedupGo_nodup _ _, ?_, rfl, by decide⟩
  intro x
  show x ∈ jsSetDedupGo [] (numberFilterBoolean l) ↔ _
  rw [jsSetDedupGo_mem]
  simp [numberFilterBoolean_mem]

/- ===================== C7 ===================== -/

theorem lookupTimer_setTimer_self (ts : List (String × Nat)) (k : String)
    (t : Nat) : lookupTimer (setTimer ts k t) k = some t := by
  induction ts with
  | nil => simp [setTimer, lookupTimer]
  | cons hd tl ih =>
    obtain ⟨k', t'⟩ := hd
    by_cases h : k' = k
    · simp [setTimer, lookupTimer, h]
    · simp [setTimer, lookupTimer, h, ih]

/-- One `startAutoPosting` call, timer view: afterwards the destination
has exactly the freshly armed timer live, and the invariants (every live
timer for the destination is the registered one; all timer ids are below
the counter) are maintained. -/
theorem startAutoPosting_once (fetch : Option (List Post))
    (send : Int → Bool) (now : Nat) (ch : ChatId) (s : BotState)
    (hreg : ∀ e ∈ s.liveTimers, e.2 = keyOf ch →
      lookupTimer s.intervals (keyOf ch) = some e.1)
    (hfresh : ∀ e ∈ s.liveTimers, e.1 < s.nextTimerId) :
    (startAutoPosting fetch send now ch s).liveTimers.filter
        (fun e => e.2 == keyOf ch) = [(s.nextTimerId, keyOf ch)] ∧
    (∀ e ∈ (startAutoPosting fetch send now ch s).liveTimers,
      e.2 = keyOf ch →
      lookupTimer (startAutoPosting fetch send now ch s).intervals
        (keyOf ch) = some e.1) ∧
    (∀ e ∈ (startAutoPosting fetch send now ch s).liveTimers,
      e.1 < (startAutoPosting fetch send now ch s).nextTimerId) := by
  have hlive1 : ∀ e ∈ (match lookupTimer s.intervals (keyOf ch) with
      | some t => clearIntervalIn s.liveTimers t
      | none => s.liveTimers), e.2 ≠ keyOf ch := by
    cases hl : lookupTimer s.intervals (keyOf ch) with
    | none =>
      intro e he hk
      rw [hreg e he hk] at hl
      exact Option.noConfusion hl
    | some t =>
      intro e he hk
      simp only [clearIntervalIn, List.mem_filter] at he
      have := hreg e he.1 hk
      rw [hl] at this
      have ht : e.1 = t := Option.some.injEq _ _ ▸ this.symm
      simp [ht] at he
  have hsub : ∀ e ∈ (match lookupTimer s.intervals (keyOf ch) with
      | some t => clearIntervalIn s.liveTimers t
      | none => s.liveTimers), e ∈ s.liveTimers := by
    cases hl : lookupTimer s.intervals (keyOf ch) with
    | none => exact fun e he => he
    | some t =>
      intro e he
      simp only [clearIntervalIn, List.mem_filter] at he
      exact he.1
  simp only [startAutoPosting]
  refine ⟨?_, ?_, ?_⟩
  · rw [List.filter_append, List.filter_eq_nil_iff.mpr ?_, List.nil_append]
    · simp
    · intro e he
      simp only [beq_iff_eq, Bool.not_eq_true]
      exact hlive1 e he
  · intro e he hk
    rw [lookupTimer_setTimer_self]
    rcases List.mem_append.mp he with h1 | h2
    · exact absurd hk (hlive1 e h1)
    · rcases List.mem_singleton.mp h2 with rfl
      rfl
  · intro e he
    rcases List.mem_append.mp he with h1 | h2
    · exact Nat.lt_succ_of_lt (hfresh e (hsub e h1))
    · rcases List.mem_singleton.mp h2 with rfl
      exact Nat.lt_succ_self _

/-- C7: starting auto-posting twice in succession leaves exactly one
live timer for the destination — the second start clears the timer armed
by the first and replaces it. Hypotheses: every live timer for this
destination is the one registered in `this.intervals`, and the timer-id
counter is fresh (both hold for every state reachable through the
scheduler API). -/
theorem startAutoPosting_twice_one_timer (ch : ChatId)
    (f1 f2 : Option (List Post)) (s1 s2 : Int → Bool) (n1 n2 : Nat)
    (s : BotState)
    (hreg : ∀ e ∈ s.liveTimers, e.2 = keyOf ch →
      lookupTimer s.intervals (keyOf ch) = some e.1)
    (hfresh : ∀ e ∈ s.liveTimers, e.1 < s.nextTimerId) :
    ((startAutoPosting f2 s2 n2 ch
        (startAutoPosting f1 s1 n1 ch s)).liveTimers.filter
      (fun e => e.2 == keyOf ch)).length = 1 := by
  obtain ⟨_, h2, h3⟩ := startAutoPosting_once f1 s1 n1 ch s hreg hfresh
  obtain ⟨g1, _, _⟩ := startAutoPosting_once f2 s2 n2 ch _ h2 h3
  rw [g1]
  rfl

/-- C7 witness: two starts from the empty scheduler state leave exactly
one live timer for chat 9. -/
theorem startAutoPosting_twice_one_timer_witness :
    ((startAutoPosting none (fun _ => true) 1 (.num 9)
        (startAutoPosting none (fun _ => true) 0 (.num 9)
          { store := [], intervals := [], liveTimers := [],
            nextTimerId := 0 })).liveTimers.filter
      (fun e => e.2 == keyOf (.num 9))).length = 1 :=
  startAutoPosting_twice_one_timer (.num 9) none none (fun _ => true)
    (fun _ => true) 1 0
    { store := [], intervals := [], liveTimers := [], nextTimerId := 0 }
    (by simp) (by simp)

/- ===================== C8 ===================== -/

theorem lookupTimer_eq_none_of_not_mem (ts : List (String × Nat))
    (k : String) (h : k ∉ ts.map Prod.fst) : lookupTimer ts k = none := by
  induction ts with
  | nil => rfl
  | cons hd tl ih =>
    obtain ⟨k', t⟩ := hd
    simp only [List.map_cons, List.mem_cons] at h
    push_neg at h
    simp only [lookupTimer]
    rw [if_neg (fun hh => h.1 hh.symm)]
    exact ih h.2

theorem lookupTimer_removeTimer_self (ts : List (String × Nat))
    (k : String) (hnd : (ts.map Prod.fst).Nodup) :
    lookupTimer (removeTimer ts k) k = none := by
  induction ts with
  | nil => rfl
  | cons hd tl ih =>
    obtain ⟨k', t⟩ := hd
    simp only [List.map_cons, List.nodup_cons] at hnd
    by_cases h : k' = k
    · subst h
      rw [show removeTimer ((k', t) :: tl) k' = tl by simp [removeTimer]]
      exact lookupTimer_eq_none_of_not_mem tl k' hnd.1
    · simp only [removeTimer, h, if_false, lookupTimer]
      exact ih hnd.2

theorem toggleAutoPosting_entry (k : String) (enabled : Bool) (now : Nat)
    (st : Store) :
    (storeGet (toggleAutoPosting (.str k) (some enabled) now st).2 k).map
      Prefs.autoPosting = some enabled := by
  simp only [toggleAutoPosting]
  rw [updatePreferences_entry_str]
  rfl

/-- C8 counterexample: calling `stopAutoPosting` while no timer is live
is a complete no-op returning false — in particular it does **not** set
the stored `autoPosting` preference to false, contradicting the claim's
"also when called while no timer for that destination is live". -/
theorem stopAutoPosting_noop_without_timer :
    (stopAutoPosting (.num 9) 0
        { store := [("9", { defaultPreferences with autoPosting := true })],
          intervals := [], liveTimers := [], nextTimerId := 0 }) =
      ({ store := [("9", { defaultPreferences with autoPosting := true })],
         intervals := [], liveTimers := [], nextTimerId := 0 }, false) ∧
    (storeGet (stopAutoPosting (.num 9) 0
        { store := [("9", { defaultPreferences with autoPosting := true })],
          intervals := [], liveTimers := [], nextTimerId := 0 }).1.store
      "9").map Prefs.autoPosting = some true :=
  ⟨rfl, rfl⟩

/-- C8 (amended): `stopAutoPosting` moves the destination to STOPPED
**only when a timer is registered for it**: it then clears the timer
(the handle stops being live and is dropped from the interval map) and
sets the stored `autoPosting` preference to false, returning true; with
no registered timer it returns false and changes nothing. -/
theorem stopAutoPosting_cancels_and_disables (ch : ChatId) (now : Nat)
    (s : BotState) (t : Nat)
    (hnd : (s.intervals.map Prod.fst).Nodup)
    (h : lookupTimer s.intervals (keyOf ch) = some t) :
    (stopAutoPosting ch now s).2 = true ∧
    lookupTimer (stopAutoPosting ch now s).1.intervals (keyOf ch) = none ∧
    (∀ e ∈ (stopAutoPosting ch now s).1.liveTimers, e.1 ≠ t) ∧
    (storeGet (stopAutoPosting ch now s).1.store (keyOf ch)).map
      Prefs.autoPosting = some false := by
  simp only [stopAutoPosting, h]
  refine ⟨trivial, lookupTimer_removeTimer_self _ _ hnd, ?_,
    toggleAutoPosting_entry _ _ _ _⟩
  intro e he
  simp only [clearIntervalIn, List.mem_filter] at he
  simpa using he.2

/-- C8 witness: the amended theorem applied to a state with a live timer
7 registered for chat 9. -/
theorem stopAutoPosting_cancels_and_disables_witness :
    (stopAutoPosting (.num 9) 0
        { store := [], intervals := [("9", 7)], liveTimers := [(7, "9")],
          nextTimerId := 8 }).2 = true ∧
    lookupTimer (stopAutoPosting (.num 9) 0
        { store := [], intervals := [("9", 7)], liveTimers := [(7, "9")],
          nextTimerId := 8 }).1.intervals (keyOf (.num 9)) = none ∧
    (∀ e ∈ (stopAutoPosting (.num 9) 0
        { store := [], intervals := [("9", 7)], liveTimers := [(7, "9")],
          nextTimerId := 8 }).1.liveTimers, e.1 ≠ 7) ∧
    (storeGet (stopAutoPosting (.num 9) 0
        { store := [], intervals := [("9", 7)], liveTimers := [(7, "9")],
          nextTimerId := 8 }).1.store (keyOf (.num 9))).map
      Prefs.autoPosting = some false :=
  stopAutoPosting_cancels_and_disables (.num 9) 0
    { store := [], intervals := [("9", 7)], liveTimers := [(7, "9")],
      nextTimerId := 8 } 7 (by decide) (by decide)

/- ===================== C9 ===================== -/

theorem normWsGo_space_mem :
    ∀ (l : List Char) (b : Bool) (c : Char), c ∈ normWsGo l b →
      isJsSpace c = true → c = ' ' := by
  intro l
  induction l with
  | nil => intro b c hc; simp [normWsGo] at hc
  | cons d rest ih =>
    intro b c hc hsp
    by_cases hd : isJsSpace d = true
    · cases b with
      | true =>
        simp only [normWsGo, hd, if_true] at hc
        exact ih true c hc hsp
      | false =>
        simp only [normWsGo, hd, if_true] at hc
        rcases List.mem_cons.mp hc with h | h
        · exact h
        · exact ih true c h hsp
    · simp only [normWsGo, hd, Bool.false_eq_true, if_false] at hc
      rcases List.mem_cons.mp hc with h | h
      · exact absurd (h ▸ hsp) (h ▸ hd)
      · exact ih false c h hsp

theorem normWsGo_true_head :
    ∀ (l : List Char) (c : Char), (normWsGo l true).head? = some c →
      isJsSpace c = false := by
  intro l
  induction l with
  | nil => intro c hc; simp [normWsGo] at hc
  | cons d rest ih =>
    intro c hc
    by_cases hd : isJsSpace d = true
    · simp only [normWsGo, hd, if_true] at hc
      exact ih c hc
    · simp only [normWsGo, hd, Bool.false_eq_true, if_false,
        List.head?_cons, Option.some.injEq] at hc
      subst hc
      exact Bool.not_eq_true _ ▸ hd

theorem normWsGo_chain :
    ∀ (l : List Char) (b : Bool), noDoubleSpace (normWsGo l b) := by
  intro l
  induction l with
  | nil => intro b; simp [normWsGo, noDoubleSpace]
  | cons d rest ih =>
    intro b
    by_cases hd : isJsSpace d = true
    · cases b with
      | true =>
        simp only [normWsGo, hd, if_true]
        exact ih true
      | false =>
        simp only [normWsGo, hd, if_true, noDoubleSpace,
          Bool.false_eq_true, if_false]
        rw [List.chain'_cons']
        refine ⟨?_, ih true⟩
        intro y hy
        have hns := normWsGo_true_head rest y hy
        exact fun hand => by rw [hns] at hand; exact Bool.noConfusion hand.2
    · simp only [normWsGo, hd, Bool.false_eq_true, if_false, noDoubleSpace]
      rw [List.chain'_cons']
      refine ⟨?_, ih false⟩
      intro y _
      exact fun hand => hd hand.1

theorem jsTrim_subset (l : List Char) : ∀ c ∈ jsTrim l, c ∈ l := by
  intro c hc
  unfold jsTrim at hc
  rw [List.mem_reverse] at hc
  have h1 := (List.dropWhile_sublist _).subset hc
  rw [List.mem_reverse] at h1
  exact (List.dropWhile_sublist _).subset h1

theorem noDoubleSpace_reverse (l : List Char) (h : noDoubleSpace l) :
    noDoubleSpace l.reverse := by
  unfold noDoubleSpace at h ⊢
  rw [List.chain'_reverse]
  exact List.Chain'.imp (fun a b hab hba => hab ⟨hba.2, hba.1⟩) h

theorem noDoubleSpace_jsTrim (l : List Char) (h : noDoubleSpace l) :
    noDoubleSpace (jsTrim l) :=
  noDoubleSpace_reverse _
    (List.Chain'.suffix
      (noDoubleSpace_reverse _
        (List.Chain'.suffix h (List.dropWhile_suffix _)))
      (List.dropWhile_suffix _))

theorem cleanExcerpt_space_mem (post : Post) :
    ∀ c ∈ cleanExcerpt post, isJsSpace c = true → c = ' ' := by
  intro c hc hsp
  have h1 := jsTrim_subset _ c hc
  exact normWsGo_space_mem _ false c h1 hsp

theorem cleanExcerpt_chain (post : Post) :
    noDoubleSpace (cleanExcerpt post) :=
  noDoubleSpace_jsTrim _ (normWsGo_chain _ false)

theorem truncateExcerpt_length_le (e : List Char) :
    (truncateExcerpt e).length ≤ 1000 := by
  unfold truncateExcerpt maxLength
  split
  · rename_i h
    rw [List.length_append, List.length_take]
    simp only [List.length_cons, List.length_nil]
    omega
  · rename_i h
    omega

theorem truncateExcerpt_space_mem (e : List Char)
    (he : ∀ c ∈ e, isJsSpace c = true → c = ' ') :
    ∀ c ∈ truncateExcerpt e, isJsSpace c = true → c = ' ' := by
  unfold truncateExcerpt
  split
  · intro c hc hsp
    rcases List.mem_append.mp hc with h | h
    · exact he c (List.take_subset _ _ h) hsp
    · rcases List.mem_cons.mp h with rfl | h2
      · exact absurd hsp (by decide)
      · rcases List.mem_cons.mp h2 with rfl | h3
        · exact absurd hsp (by decide)
        · rcases List.mem_singleton.mp h3 with rfl
          exact absurd hsp (by decide)
  · exact he

theorem truncateExcerpt_chain (e : List Char) (he : noDoubleSpace e) :
    noDoubleSpace (truncateExcerpt e) := by
  unfold truncateExcerpt noDoubleSpace
  split
  · rw [List.chain'_append]
    refine ⟨List.Chain'.take he 997, ?_, ?_⟩
    · rw [List.chain'_cons, List.chain'_cons]
      exact ⟨fun hand => Bool.noConfusion hand.1,
             fun hand => Bool.noConfusion hand.1,
             List.chain'_singleton _⟩
    · intro x _ y hy
      simp only [List.head?_cons, Option.mem_def, Option.some.injEq] at hy
      subst hy
      exact fun hand => Bool.noConfusion hand.2
  · exact he

/-- C9: the formatter is a total function on content items — for every
post it renders a message whose text embeds the cleaned excerpt; the
cleaned excerpt has its whitespace normalized (every whitespace
character is a plain space and no two whitespace characters are
adjacent), never exceeds 1000 characters, and an over-long excerpt is
cut to 997 characters plus a `...` ellipsis marker. -/
theorem formatPost_total_and_safe (post : Post) :
    (formatPost post).text =
      '*' :: post.title.toList ++ '*' :: '\n' :: '\n' ::
        renderedExcerpt post ++ '\n' :: '\n' ::
        ('[' :: "Read more](".toList ++ post.link.toList ++ [')']) ∧
    (renderedExcerpt post).length ≤ 1000 ∧
    (maxLength < (cleanExcerpt post).length →
      renderedExcerpt post =
        (cleanExcerpt post).take 997 ++ ('.' :: '.' :: '.' :: [])) ∧
    (∀ c ∈ renderedExcerpt post, isJsSpace c = true → c = ' ') ∧
    noDoubleSpace (renderedExcerpt post) := by
  refine ⟨rfl, truncateExcerpt_length_le _, ?_, ?_, ?_⟩
  · intro h
    unfold renderedExcerpt truncateExcerpt
    rw [if_pos h]
    rfl
  · exact truncateExcerpt_space_mem _ (cleanExcerpt_space_mem post)
  · exact truncateExcerpt_chain _ (cleanExcerpt_chain post)

set_option maxRecDepth 100000 in
/-- C9 witness: on a post whose raw excerpt is 1001 copies of `a`, the
formatter truncates to 997 characters plus the ellipsis, staying within
the 1000-character bound. -/
theorem formatPost_total_and_safe_witness :
    (renderedExcerpt
        { id := 1, title := "t",
          excerpt := String.mk (List.replicate 1001 'a'), link := "l",
          categories := [], tags := [] }).length ≤ 1000 ∧
    renderedExcerpt
        { id := 1, title := "t",
          excerpt := String.mk (List.replicate 1001 'a'), link := "l",
          categories := [], tags := [] } =
      (cleanExcerpt
        { id := 1, title := "t",
          excerpt := String.mk (List.replicate 1001 'a'), link := "l",
          categories := [], tags := [] }).take 997 ++
        ('.' :: '.' :: '.' :: []) :=
  ⟨(formatPost_total_and_safe _).2.1,
   (formatPost_total_and_safe _).2.2.1 (by decide)⟩

/- ===================== C10 ===================== -/

/-- C10: every Preference Store operation coerces the chat id with
`String()` before keying the cache, so the numeric and the string form
of the same id read and mutate the same entry (shown for get, update and
the cursor update); the cache is keyed by strings only (the key type of
`Store`); and a get on an absent key lazily creates, caches and returns
the default entry — it never fails. -/
theorem preferences_string_keyed (n : Int) (st : Store) (u : PrefPatch)
    (postId : Int) (now : Nat) :
    getPreferences (.num n) st = getPreferences (.str (toString n)) st ∧
    updatePreferences (.num n) u st =
      updatePreferences (.str (toString n)) u st ∧
    updateLastPostId (.num n) postId now st =
      updateLastPostId (.str (toString n)) postId now st ∧
    (getPreferences (.num n) st).1 =
      (storeGet st (toString n)).getD defaultPreferences ∧
    storeGet (getPreferences (.num n) st).2 (toString n) =
      some ((storeGet st (toString n)).getD defaultPreferences) := by
  refine ⟨rfl, rfl, rfl, ?_, ?_⟩
  · simp only [getPreferences, keyOf]
    cases h : storeGet st (toString n) with
    | some p => simp [h]
    | none => simp [h]
  · simp only [getPreferences, keyOf]
    cases h : storeGet st (toString n) with
    | some p => simp [h]
    | none => simp [h, storeGet_storeSet_self]

end Innovopedia
